import Mathlib

/-!
Verification of `src/price_tracker/main.py` (shanghai-disney-price-tracker).

The development shallowly embeds the program's pure core:

* `extractVals` — the matches of `PRICE_RE` over a string, i.e. the values
  `float(m.group(1).replace(",", ""))` produced by
  `PRICE_RE.finditer`.  The pattern is
  `(?:A$|AU$|$|¥|CNY)\s*([1-9]\d(?:,\d\x7b3\x7d)*|\d\x7b3,\x7d)(?:\.\d\x7b1,2\x7d)?`
  (dollar signs escaped in the source).  Group 1 is a digits-and-commas
  string, so every extracted value is a non-negative integer; we model the
  values as `Nat`.  Python's backtracking engine is modelled exactly where
  its behaviour is observable (see the comments on each piece).
* `fetchPrices` / `fetch_min_price_core` — the body of `fetch_min_price`
  after the page interaction: pass 1 over the currency-symbol text
  fragments, the full-HTML fallback, the `> 40` threshold, the
  `10 < p < 5000` band, and `min(prices) if prices else None`.
* `buildTargets`, `collectResults`, `cheapestOf`, `shouldAlert`,
  `newBest` — the orchestration and alert decision in `main`.
-/

namespace PriceTracker

/-- The characters the pattern's `\s` accepts (ASCII cases; the pages the
program scrapes separate symbol and digits by ordinary spaces). -/
def isPySpace (c : Char) : Bool :=
  c = ' ' || c = '\t' || c = '\n' || c = '\r' || c = '\x0b' || c = '\x0c'

/-- Numeric value of a decimal digit character. -/
def digitVal (c : Char) : Nat := c.toNat - '0'.toNat

/-- The currency-symbol alternation `A$ | AU$ | $ | ¥ | CNY` of `PRICE_RE`,
tried leftmost-first.  At any one position at most one branch can match
(`A$` and `AU$` differ in their second character, the rest start with
distinct characters), so a deterministic function is a faithful model of
the backtracking engine. -/
def matchSym : List Char → Option (List Char)
  | 'A' :: '$' :: rest => some rest
  | 'A' :: 'U' :: '$' :: rest => some rest
  | '$' :: rest => some rest
  | '¥' :: rest => some rest
  | 'C' :: 'N' :: 'Y' :: rest => some rest
  | _ => none

/-- Greedy `\s*`.  The next pattern element is a digit, never a space, so
the engine never profits from backtracking out of the greedy star and the
fully-greedy model is faithful. -/
def skipSpaces : List Char → List Char
  | c :: rest => if isPySpace c then skipSpaces rest else c :: rest
  | [] => []

/-- Greedy `(?:,\d\x7b3\x7d)*` continuing a partial group-1 value: each
iteration consumes a comma and exactly three digits.  Nothing after group 1
can fail, so the star is never re-entered by backtracking. -/
def matchThousands : Nat → List Char → Nat × List Char
  | acc, ',' :: a :: b :: c :: rest =>
      if a.isDigit && b.isDigit && c.isDigit then
        matchThousands (acc * 1000 + digitVal a * 100 + digitVal b * 10 + digitVal c) rest
      else (acc, ',' :: a :: b :: c :: rest)
  | acc, cs => (acc, cs)

/-- Greedy run of `\d`, accumulating the value and the digit count. -/
def takeDigits : Nat → Nat → List Char → Nat × Nat × List Char
  | acc, n, c :: rest =>
      if c.isDigit then takeDigits (acc * 10 + digitVal c) (n + 1) rest
      else (acc, n, c :: rest)
  | acc, n, [] => (acc, n, [])

/-- Group 1 of `PRICE_RE`: `[1-9]\d(?:,\d\x7b3\x7d)* | \d\x7b3,\x7d`, tried
leftmost-first.  When the first alternative matches, the rest of the
pattern (an optional group) always succeeds, so the engine never retries
with the second alternative: `¥599` yields the value 59, not 599.  The
returned number is `int(group.replace(",", ""))`; `float` of such a string
never raises, so the `try/except` around it in the source is dead. -/
def matchGroup : List Char → Option (Nat × List Char)
  | c1 :: c2 :: rest =>
      if c1.isDigit && c1 ≠ '0' && c2.isDigit then
        some (matchThousands (digitVal c1 * 10 + digitVal c2) rest)
      else
        let (v, n, rest2) := takeDigits 0 0 (c1 :: c2 :: rest)
        if n ≥ 3 then some (v, rest2) else none
  | _ => none

/-- Optional `(?:\.\d\x7b1,2\x7d)?`, greedy.  Group 1 is already fixed, so
this only moves the position at which `finditer` resumes. -/
def skipDecimal : List Char → List Char
  | '.' :: a :: b :: rest =>
      if a.isDigit then (if b.isDigit then rest else b :: rest)
      else '.' :: a :: b :: rest
  | '.' :: a :: rest => if a.isDigit then rest else '.' :: a :: rest
  | cs => cs

/-- One attempted match of `PRICE_RE` anchored at the head of `cs`,
returning the group-1 value and the characters after the match. -/
def matchAt (cs : List Char) : Option (Nat × List Char) :=
  match matchSym cs with
  | none => none
  | some r1 =>
      match matchGroup (skipSpaces r1) with
      | none => none
      | some (v, r2) => some (v, skipDecimal r2)

/-- Scan left to right as `finditer` does, collecting non-overlapping
matches and resuming after each match.  Every successful match consumes at
least one character (the currency symbol), so fuel equal to the string
length always suffices and the function never truncates on its intended
argument. -/
def scanAux : Nat → List Char → List Nat
  | 0, _ => []
  | _ + 1, [] => []
  | fuel + 1, c :: cs =>
      match matchAt (c :: cs) with
      | none => scanAux fuel cs
      | some (v, rest) => v :: scanAux fuel rest

/-- All group-1 values of `PRICE_RE.finditer(s)`, in match order. -/
def extractVals (s : String) : List Nat :=
  scanAux s.data.length s.data

/-- Pass 1 of `fetch_min_price`: for each candidate text fragment, every
`PRICE_RE` value with `val > 40` is appended, in fragment order then match
order. -/
def pass1Prices (frags : List String) : List Nat :=
  ((frags.map extractVals).flatten).filter (fun v => decide (40 < v))

/-- The `prices` list of `fetch_min_price` just before the `return`: pass 1
over the fragments, the full-HTML fallback when pass 1 stayed empty, then
the plausibility band `10 < p < 5000`. -/
def fetchPrices (frags : List String) (html : String) : List Nat :=
  (if pass1Prices frags = [] then (extractVals html).filter (fun v => decide (40 < v))
   else pass1Prices frags).filter (fun p => decide (10 < p ∧ p < 5000))

/-- Python's `min` on a possibly-empty list (first element, folded down). -/
def pyMin {α : Type} [LinearOrder α] (l : List α) : Option α :=
  match l with
  | [] => none
  | x :: xs => some (xs.foldl min x)

/-- Final line `return min(prices) if prices else None` — the extraction
result of `fetch_min_price` for a page whose currency-symbol fragments are
`frags` and whose full HTML is `html`. -/
def fetch_min_price_core (frags : List String) (html : String) : Option Nat :=
  pyMin (fetchPrices frags html)

/-! ## The orchestrator and the alert decision (`main`)

Extracted values are integers, but the history file may hold any JSON
number, so the orchestrator layer carries prices as `ℚ` (every value the
program actually compares is an integer well below `2^53`, so Python's
float arithmetic on them is exact and `ℚ` is a faithful model). -/

/-- One `(vendor, date_str, url)` scrape target of `main`. -/
structure Target where
  vendor : String
  date : String
  url : String
deriving DecidableEq

/-- One entry of `results`:
`{"vendor": .., "date": .., "url": .., "minPrice": price}`. -/
structure Obs where
  vendor : String
  date : String
  url : String
  minPrice : Option ℚ
deriving DecidableEq

/-- The `cheapest` dict of `main`; its `"price"` is never `None` by
construction. -/
structure Cheapest where
  price : ℚ
  vendor : String
  date : String
  url : String
deriving DecidableEq

/-- A `best` record as stored in the history JSON.  `price = none` models
a record whose `"price"` key is absent, which the code reads through
`last_best.get("price", 10**9)`. -/
structure BestRec where
  price : Option ℚ
  vendor : String
  date : String
  url : String
deriving DecidableEq

/-- The cheapest observation written as a `best` record
(`history["best"] = cheapest`). -/
def Cheapest.toBest (c : Cheapest) : BestRec :=
  ⟨some c.price, c.vendor, c.date, c.url⟩

/-- Python's `str.strip()` (ASCII whitespace cases). -/
def pyStrip (s : String) : String :=
  ⟨((s.data.dropWhile isPySpace).reverse.dropWhile isPySpace).reverse⟩

/-- Left-to-right replacement of every occurrence of `{DATE}`; fuel equal
to the input length always suffices since each step consumes a character. -/
def replaceDate (d : List Char) : Nat → List Char → List Char
  | 0, cs => cs
  | _ + 1, [] => []
  | fuel + 1, '{' :: 'D' :: 'A' :: 'T' :: 'E' :: '}' :: rest => d ++ replaceDate d fuel rest
  | fuel + 1, c :: rest => c :: replaceDate d fuel rest

/-- Substitution `tmpl.format(DATE=d)` for the URL templates, whose only
replacement field is `{DATE}`: every occurrence is substituted by the
date. -/
def substDate (tmpl d : String) : String :=
  ⟨replaceDate d.data tmpl.data.length tmpl.data⟩

/-- The Python test `"{DATE}" in tmpl`. -/
def containsDate : List Char → Bool
  | '{' :: 'D' :: 'A' :: 'T' :: 'E' :: '}' :: _ => true
  | _ :: rest => containsDate rest
  | [] => false

/-- The target-building loop at the top of `main`: each configured date is
stripped, empty entries are dropped, KLOOK's template is interpolated only
when it contains the placeholder, TRIPCOM's only when it is non-empty
(`if TRIPCOM_URL else None`), and falsy (empty) URLs are not appended. -/
def buildTargets (dates : List String) (klookUrl tripUrl : String) : List Target :=
  ((dates.map pyStrip).filter (fun d => decide (d ≠ ""))).flatMap (fun d =>
    let klook := if containsDate klookUrl.data then substDate klookUrl d else klookUrl
    let trip : Option String := if tripUrl ≠ "" then some (substDate tripUrl d) else none
    (if klook ≠ "" then [Target.mk "KLOOK" d klook] else []) ++
    (match trip with
     | some t => if t ≠ "" then [Target.mk "TRIPCOM" d t] else []
     | none => []))

/-- What one call of `fetch_min_price` does before its `try/except` is
applied: either an exception (message) from the page interaction or an
optional extracted price. -/
abbrev FetchOutcome := Except String (Option ℚ)

/-- The `try/except` wrapping the body of `fetch_min_price`: any exception
is caught, logged and turned into `None`. -/
def catchFetch (o : FetchOutcome) : Option ℚ :=
  match o with
  | .ok v => v
  | .error _ => none

/-- The scraping loop of `main`: targets with an empty URL are skipped by
`if not url: continue`; every other target contributes exactly one
observation, a failed fetch yielding `minPrice = none`, and the loop
always continues with the remaining targets. -/
def collectResults (targets : List Target) (fetch : Target → FetchOutcome) : List Obs :=
  targets.flatMap (fun t =>
    if t.url = "" then [] else [Obs.mk t.vendor t.date t.url (catchFetch (fetch t))])

/-- One step of the "pick cheapest" loop of `main`. -/
def cheapStep (cheapest : Option Cheapest) (r : Obs) : Option Cheapest :=
  match r.minPrice with
  | none => cheapest
  | some p =>
      match cheapest with
      | none => some ⟨p, r.vendor, r.date, r.url⟩
      | some c => if p < c.price then some ⟨p, r.vendor, r.date, r.url⟩ else cheapest

/-- The "pick cheapest" loop of `main`: entries with `minPrice = None` are
skipped; the first strictly-minimal present price wins. -/
def cheapestOf (results : List Obs) : Option Cheapest :=
  results.foldl cheapStep none

/-- The alert decision of `main`:
`should_alert` is set exactly when `cheapest` exists and
`not last_best or cheapest["price"] < last_best.get("price", 10**9)`. -/
def shouldAlert (cheapest : Option Cheapest) (lastBest : Option BestRec) : Bool :=
  match cheapest with
  | none => false
  | some c =>
      match lastBest with
      | none => true
      | some b => decide (c.price < b.price.getD (10 ^ 9))

/-- The `history["best"]` assignment of `main`: it starts as `last_best`;
when a cheapest observation exists it becomes the cheapest on an alert and
`last_best` otherwise. -/
def newBest (cheapest : Option Cheapest) (lastBest : Option BestRec) : Option BestRec :=
  match cheapest with
  | none => lastBest
  | some c => if shouldAlert (some c) lastBest then some c.toBest else lastBest

/-- The best-record update performed by one complete run whose collected
observations are `results`. -/
def runBest (lastBest : Option BestRec) (results : List Obs) : Option BestRec :=
  newBest (cheapestOf results) lastBest

/-- The persisted best record after a sequence of runs, each reading the
snapshot the previous one wrote, starting from no history. -/
def runsBest (runs : List (List Obs)) : Option BestRec :=
  runs.foldl runBest none

/-- Every present `minPrice` observed during `runs`, in order. -/
def observedPrices (runs : List (List Obs)) : List ℚ :=
  runs.flatMap (fun results => results.filterMap (fun r => r.minPrice))

/-- Reachable-state invariant for the persisted best record: an absent
best means no price has ever been observed, and a present best carries a
price that is a lower bound of every price observed so far. -/
def GoodBest (b : Option BestRec) (ps : List ℚ) : Prop :=
  match b with
  | none => ps = []
  | some br => ∃ q, br.price = some q ∧ ∀ p ∈ ps, q ≤ p

/-! ## Helper lemmas -/

theorem foldlMin_mem {α : Type} [LinearOrder α] (xs : List α) (x : α) :
    xs.foldl min x ∈ x :: xs := by
  induction xs generalizing x with
  | nil => simp
  | cons y ys ih =>
      rw [List.foldl_cons]
      rcases List.mem_cons.mp (ih (min x y)) with h2 | h2
      · rw [h2]
        rcases min_choice x y with hm | hm <;> rw [hm] <;> simp
      · simp [h2]

theorem foldlMin_le {α : Type} [LinearOrder α] (xs : List α) (x : α) :
    ∀ q ∈ x :: xs, xs.foldl min x ≤ q := by
  induction xs generalizing x with
  | nil =>
      intro q hq
      rw [List.mem_singleton] at hq
      simp [hq]
  | cons y ys ih =>
      intro q hq
      rw [List.foldl_cons]
      rcases List.mem_cons.mp hq with h | h
      · rw [h]
        exact le_trans (ih (min x y) _ (List.mem_cons_self _ _)) (min_le_left _ _)
      · rcases List.mem_cons.mp h with h | h
        · rw [h]
          exact le_trans (ih (min x y) _ (List.mem_cons_self _ _)) (min_le_right _ _)
        · exact ih (min x y) q (List.mem_cons_of_mem _ h)

theorem pyMin_eq_none_iff {α : Type} [LinearOrder α] (l : List α) :
    pyMin l = none ↔ l = [] := by
  cases l <;> simp [pyMin]

theorem pyMin_spec {α : Type} [LinearOrder α] (l : List α) (p : α) (h : pyMin l = some p) :
    p ∈ l ∧ ∀ q ∈ l, p ≤ q := by
  cases l with
  | nil => simp [pyMin] at h
  | cons x xs =>
      simp only [pyMin, Option.some.injEq] at h
      subst h
      exact ⟨foldlMin_mem xs x, foldlMin_le xs x⟩

/-! ## C3, C4, C5 — the extractor pipeline -/

/-- C3: every candidate value that survives to the final `prices` list of
`fetch_min_price` exceeds the 40 threshold and lies in the open band
`(10, 5000)` — so candidates `≤ 40` or outside the band are excluded from
consideration on every input; the fragment `"¥38"` yields exactly the
value 38, which is discarded and yields no price for that fragment
alone. -/
theorem band_filter (frags : List String) (html : String) :
    (∀ p ∈ fetchPrices frags html, 40 < p ∧ 10 < p ∧ p < 5000) ∧
    extractVals "¥38" = [38] ∧
    fetch_min_price_core ["¥38"] "¥38" = none := by
  refine ⟨?_, by decide, by decide⟩
  intro p hp
  unfold fetchPrices at hp
  rw [List.mem_filter] at hp
  obtain ⟨hp2, hband⟩ := hp
  rw [decide_eq_true_eq] at hband
  refine ⟨?_, hband.1, hband.2⟩
  split at hp2
  · rw [List.mem_filter, decide_eq_true_eq] at hp2
    exact hp2.2
  · unfold pass1Prices at hp2
    rw [List.mem_filter, decide_eq_true_eq] at hp2
    exact hp2.2

/-- Witness for `band_filter` at a concrete surviving candidate. -/
theorem band_filter_witness :
    (40 < 45 ∧ 10 < 45 ∧ 45 < 5000) ∧
    extractVals "¥38" = [38] ∧ fetch_min_price_core ["¥38"] "¥38" = none :=
  ⟨(band_filter ["see $450 or $99"] "").1 45 (by decide),
   (band_filter [] "").2.1, (band_filter [] "").2.2⟩

/-- C4: `fetch_min_price` returns the minimum of the surviving candidate
values, and returns no price exactly when the surviving candidate list is
empty. -/
theorem fetch_min_is_min (frags : List String) (html : String) :
    (fetch_min_price_core frags html = none ↔ fetchPrices frags html = []) ∧
    (∀ p, fetch_min_price_core frags html = some p →
      p ∈ fetchPrices frags html ∧ ∀ q ∈ fetchPrices frags html, p ≤ q) :=
  ⟨pyMin_eq_none_iff _, fun p hp => pyMin_spec _ p hp⟩

/-- Witness for `fetch_min_is_min`: an empty candidate set and a two-element
one. -/
theorem fetch_min_is_min_witness :
    fetch_min_price_core ["¥38"] "¥38" = none ∧
    45 ∈ fetchPrices ["see $450 or $99"] "" ∧
    ∀ q ∈ fetchPrices ["see $450 or $99"] "", 45 ≤ q :=
  ⟨(fetch_min_is_min ["¥38"] "¥38").1.mpr (by decide),
   ((fetch_min_is_min ["see $450 or $99"] "").2 45 (by decide)).1,
   ((fetch_min_is_min ["see $450 or $99"] "").2 45 (by decide)).2⟩

/-- C5: the full-HTML scan is consulted exactly when pass 1 over the
currency-symbol fragments left no surviving (`> 40`) match: with an empty
pass 1 the final candidates are computed from the HTML, and with a
non-empty pass 1 they are computed from the fragments alone — the HTML
contributes no candidate and the result is independent of it. -/
theorem fallback_iff (frags : List String) (html html2 : String) :
    (pass1Prices frags = [] →
      fetchPrices frags html =
        ((extractVals html).filter (fun v => decide (40 < v))).filter
          (fun p => decide (10 < p ∧ p < 5000))) ∧
    (pass1Prices frags ≠ [] →
      fetchPrices frags html =
        (pass1Prices frags).filter (fun p => decide (10 < p ∧ p < 5000)) ∧
      fetchPrices frags html = fetchPrices frags html2) := by
  constructor
  · intro h
    unfold fetchPrices
    rw [if_pos h]
  · intro h
    unfold fetchPrices
    rw [if_neg h, if_neg h]
    exact ⟨rfl, rfl⟩

/-- Witness for `fallback_iff`: a fragment list whose matches all fail the
threshold (fallback taken) and one with a surviving match (HTML
ignored). -/
theorem fallback_iff_witness :
    fetchPrices ["¥38"] "$450" =
      ((extractVals "$450").filter (fun v => decide (40 < v))).filter
        (fun p => decide (10 < p ∧ p < 5000)) ∧
    fetchPrices ["$77"] "x$450" = fetchPrices ["$77"] "y" :=
  ⟨(fallback_iff ["¥38"] "$450" "").1 (by decide),
   ((fallback_iff ["$77"] "x$450" "y").2 (by decide)).2⟩

/-! ## C1, C2, C10 — the alert decision -/

/-- C1: `should_alert` is true iff a cheapest observation exists and either
no previous best exists or the new price is strictly below the previous
best's price (for a previous best that carries a price); in particular a
price tie never alerts. -/
theorem alert_rule (cheapest : Option Cheapest) (lastBest : Option BestRec)
    (hwf : ∀ b, lastBest = some b → ∃ q, b.price = some q) :
    (shouldAlert cheapest lastBest = true ↔
      ∃ c, cheapest = some c ∧
        (lastBest = none ∨ ∃ b q, lastBest = some b ∧ b.price = some q ∧ c.price < q)) ∧
    (∀ c b, cheapest = some c → lastBest = some b → b.price = some c.price →
      shouldAlert cheapest lastBest = false) := by
  constructor
  · cases cheapest with
    | none => simp [shouldAlert]
    | some c =>
        cases lastBest with
        | none => simp [shouldAlert]
        | some b =>
            obtain ⟨q, hq⟩ := hwf b rfl
            simp [shouldAlert, hq]
  · intro c b hc hb hp
    subst hc
    subst hb
    simp [shouldAlert, hp]

/-- Witness for `alert_rule`: no previous best alerts; an equal price does
not. -/
theorem alert_rule_witness :
    shouldAlert (some ⟨300, "KLOOK", "2025-09-01", "u"⟩) none = true ∧
    shouldAlert (some ⟨500, "KLOOK", "2025-09-01", "u"⟩)
      (some ⟨some 500, "TRIPCOM", "2025-09-01", "v"⟩) = false := by
  constructor
  · exact (alert_rule (some ⟨300, "KLOOK", "2025-09-01", "u"⟩) none (by simp)).1.mpr
      ⟨_, rfl, Or.inl rfl⟩
  · exact (alert_rule (some ⟨500, "KLOOK", "2025-09-01", "u"⟩)
      (some ⟨some 500, "TRIPCOM", "2025-09-01", "v"⟩)
      (fun b hb => ⟨500, by cases hb; rfl⟩)).2 _ _ rfl rfl rfl

/-- C2: after the decision the persisted best equals the current cheapest
observation (vendor, date and url attached) when alerting, and otherwise
equals the previous best unchanged — including staying absent when there
was no previous best. -/
theorem newBest_rule (cheapest : Option Cheapest) (lastBest : Option BestRec) :
    (shouldAlert cheapest lastBest = true →
      ∃ c, cheapest = some c ∧ newBest cheapest lastBest = some c.toBest) ∧
    (shouldAlert cheapest lastBest = false → newBest cheapest lastBest = lastBest) := by
  constructor
  · intro h
    cases cheapest with
    | none => simp [shouldAlert] at h
    | some c => exact ⟨c, rfl, by simp [newBest, h]⟩
  · intro h
    cases cheapest with
    | none => rfl
    | some c => simp [newBest, h]

/-- Witness for `newBest_rule`: a new low replaces the best; with no
cheapest observation an absent best stays absent. -/
theorem newBest_rule_witness :
    newBest (some ⟨450, "KLOOK", "2025-09-01", "u"⟩) (some ⟨some 500, "TRIPCOM", "d", "v"⟩) =
      some ⟨some 450, "KLOOK", "2025-09-01", "u"⟩ ∧
    newBest none none = none := by
  constructor
  · obtain ⟨c, hc, hn⟩ := (newBest_rule (some ⟨450, "KLOOK", "2025-09-01", "u"⟩)
      (some ⟨some 500, "TRIPCOM", "d", "v"⟩)).1 (by decide)
    cases hc
    exact hn
  · exact (newBest_rule none none).2 (by decide)

/-- C10: a loaded best record that lacks its `price` field is compared
through the default `10^9`, so any cheapest observation priced below 5000
(as every extracted price is) triggers an alert and replaces that record
as the new best. -/
theorem missing_price_default (c : Cheapest) (b : BestRec) (hb : b.price = none) :
    shouldAlert (some c) (some b) = decide (c.price < 10 ^ 9) ∧
    (c.price < 5000 →
      shouldAlert (some c) (some b) = true ∧ newBest (some c) (some b) = some c.toBest) := by
  have h1 : shouldAlert (some c) (some b) = decide (c.price < 10 ^ 9) := by
    simp [shouldAlert, hb]
  refine ⟨h1, fun hc => ?_⟩
  have h2 : shouldAlert (some c) (some b) = true := by
    rw [h1, decide_eq_true_eq]
    calc c.price < 5000 := hc
      _ < 10 ^ 9 := by norm_num
  exact ⟨h2, by simp [newBest, h2]⟩

/-- Witness for `missing_price_default` at a concrete priceless record. -/
theorem missing_price_default_witness :
    shouldAlert (some ⟨4999, "KLOOK", "2025-09-01", "u"⟩)
      (some ⟨none, "TRIPCOM", "2025-09-02", "v"⟩) = true ∧
    newBest (some ⟨4999, "KLOOK", "2025-09-01", "u"⟩)
      (some ⟨none, "TRIPCOM", "2025-09-02", "v"⟩) =
      some ⟨some 4999, "KLOOK", "2025-09-01", "u"⟩ :=
  (missing_price_default ⟨4999, "KLOOK", "2025-09-01", "u"⟩
    ⟨none, "TRIPCOM", "2025-09-02", "v"⟩ rfl).2 (by norm_num)

/-! ## C7 — fetch failures are local -/

theorem cheapStep_skips_none (acc : Option Cheapest) (r : Obs) (h : r.minPrice = none) :
    cheapStep acc r = acc := by
  simp [cheapStep, h]

/-- Entries without a present price play no role in the cheapest
computation. -/
theorem cheapestOf_filter_isSome (l : List Obs) :
    cheapestOf l = cheapestOf (l.filter (fun r => r.minPrice.isSome)) := by
  unfold cheapestOf
  generalize (none : Option Cheapest) = acc
  induction l generalizing acc with
  | nil => rfl
  | cons r rs ih =>
      cases hr : r.minPrice with
      | none =>
          rw [List.filter_cons_of_neg (by simp [hr]), List.foldl_cons,
            cheapStep_skips_none acc r hr]
          exact ih acc
      | some p =>
          rw [List.filter_cons_of_pos (by simp [hr]), List.foldl_cons, List.foldl_cons]
          exact ih _

theorem collectResults_length (targets : List Target) (fetch : Target → FetchOutcome) :
    (collectResults targets fetch).length =
      (targets.filter (fun t => decide (t.url ≠ ""))).length := by
  induction targets with
  | nil => rfl
  | cons t ts ih =>
      unfold collectResults at *
      rw [List.flatMap_cons, List.filter_cons]
      by_cases h : t.url = ""
      · simp [h, ih]
      · simp [h, ih]

theorem collectResults_mem_failed (targets : List Target) (fetch : Target → FetchOutcome)
    (t : Target) (ht : t ∈ targets) (hurl : t.url ≠ "") (e : String)
    (hf : fetch t = .error e) :
    Obs.mk t.vendor t.date t.url none ∈ collectResults targets fetch := by
  unfold collectResults
  rw [List.mem_flatMap]
  refine ⟨t, ht, ?_⟩
  rw [if_neg hurl]
  simp [catchFetch, hf]

/-- C7: a rendering failure for one target is caught at the call site: that
target still contributes an observation, with `minPrice = none`; every
other target with a non-empty URL is still fetched (one observation per
such target, so the run is not aborted); and the cheapest is computed only
from the observations whose price is present. -/
theorem fetch_failure_isolated (targets : List Target) (fetch : Target → FetchOutcome)
    (t : Target) (e : String) (ht : t ∈ targets) (hurl : t.url ≠ "")
    (hf : fetch t = .error e) :
    (collectResults targets fetch).length =
      (targets.filter (fun t2 => decide (t2.url ≠ ""))).length ∧
    Obs.mk t.vendor t.date t.url none ∈ collectResults targets fetch ∧
    cheapestOf (collectResults targets fetch) =
      cheapestOf ((collectResults targets fetch).filter (fun r => r.minPrice.isSome)) :=
  ⟨collectResults_length targets fetch,
   collectResults_mem_failed targets fetch t ht hurl e hf,
   cheapestOf_filter_isSome _⟩

/-- Witness for `fetch_failure_isolated`: four targets, one of which throws;
the run yields 3 successful observations and 1 with `minPrice = none`. -/
theorem fetch_failure_isolated_witness :
    (collectResults
      [⟨"KLOOK", "2025-09-01", "u1"⟩, ⟨"TRIPCOM", "2025-09-01", "u2"⟩,
       ⟨"KLOOK", "2025-09-02", "u3"⟩, ⟨"TRIPCOM", "2025-09-02", "u4"⟩]
      (fun t => if t.url = "u2" then .error "timeout" else .ok (some 500))).length = 4 ∧
    Obs.mk "TRIPCOM" "2025-09-01" "u2" none ∈ collectResults
      [⟨"KLOOK", "2025-09-01", "u1"⟩, ⟨"TRIPCOM", "2025-09-01", "u2"⟩,
       ⟨"KLOOK", "2025-09-02", "u3"⟩, ⟨"TRIPCOM", "2025-09-02", "u4"⟩]
      (fun t => if t.url = "u2" then .error "timeout" else .ok (some 500)) ∧
    ((collectResults
      [⟨"KLOOK", "2025-09-01", "u1"⟩, ⟨"TRIPCOM", "2025-09-01", "u2"⟩,
       ⟨"KLOOK", "2025-09-02", "u3"⟩, ⟨"TRIPCOM", "2025-09-02", "u4"⟩]
      (fun t => if t.url = "u2" then .error "timeout" else .ok (some 500))).filter
        (fun r => r.minPrice.isSome)).length = 3 ∧
    cheapestOf (collectResults
      [⟨"KLOOK", "2025-09-01", "u1"⟩, ⟨"TRIPCOM", "2025-09-01", "u2"⟩,
       ⟨"KLOOK", "2025-09-02", "u3"⟩, ⟨"TRIPCOM", "2025-09-02", "u4"⟩]
      (fun t => if t.url = "u2" then .error "timeout" else .ok (some 500))) =
    cheapestOf ((collectResults
      [⟨"KLOOK", "2025-09-01", "u1"⟩, ⟨"TRIPCOM", "2025-09-01", "u2"⟩,
       ⟨"KLOOK", "2025-09-02", "u3"⟩, ⟨"TRIPCOM", "2025-09-02", "u4"⟩]
      (fun t => if t.url = "u2" then .error "timeout" else .ok (some 500))).filter
        (fun r => r.minPrice.isSome)) := by
  have h := fetch_failure_isolated
    [⟨"KLOOK", "2025-09-01", "u1"⟩, ⟨"TRIPCOM", "2025-09-01", "u2"⟩,
     ⟨"KLOOK", "2025-09-02", "u3"⟩, ⟨"TRIPCOM", "2025-09-02", "u4"⟩]
    (fun t => if t.url = "u2" then .error "timeout" else .ok (some 500))
    ⟨"TRIPCOM", "2025-09-01", "u2"⟩ "timeout" (by decide) (by decide) rfl
  exact ⟨h.1.trans (by decide), h.2.1, by decide, h.2.2⟩

/-! ## C6 — the all-time-best invariant -/

/-- Continuing the cheapest fold from a candidate yields the running
minimum of present prices. -/
theorem cheapFold_price (l : List Obs) :
    ∀ c : Cheapest, (l.foldl cheapStep (some c)).map Cheapest.price =
      some ((l.filterMap (fun r => r.minPrice)).foldl min c.price) := by
  induction l with
  | nil => intro c; rfl
  | cons r rs ih =>
      intro c
      cases hr : r.minPrice with
      | none =>
          rw [List.foldl_cons, cheapStep_skips_none _ r hr, List.filterMap_cons_none hr]
          exact ih c
      | some p =>
          by_cases hpc : p < c.price
          · have hstep : cheapStep (some c) r = some ⟨p, r.vendor, r.date, r.url⟩ := by
              simp [cheapStep, hr, hpc]
            rw [List.foldl_cons, hstep, ih, List.filterMap_cons_some hr, List.foldl_cons,
              min_eq_right (le_of_lt hpc)]
          · have hstep : cheapStep (some c) r = some c := by
              simp [cheapStep, hr, hpc]
            rw [List.foldl_cons, hstep, ih, List.filterMap_cons_some hr, List.foldl_cons,
              min_eq_left (le_of_not_lt hpc)]

/-- The price of the cheapest observation is Python's `min` of the present
prices. -/
theorem cheapestOf_price (l : List Obs) :
    (cheapestOf l).map Cheapest.price = pyMin (l.filterMap (fun r => r.minPrice)) := by
  unfold cheapestOf
  induction l with
  | nil => rfl
  | cons r rs ih =>
      cases hr : r.minPrice with
      | none =>
          rw [List.foldl_cons, cheapStep_skips_none _ r hr, List.filterMap_cons_none hr]
          exact ih
      | some p =>
          have hstep : cheapStep none r = some ⟨p, r.vendor, r.date, r.url⟩ := by
            simp [cheapStep, hr]
          rw [List.foldl_cons, hstep, cheapFold_price rs ⟨p, r.vendor, r.date, r.url⟩,
            List.filterMap_cons_some hr]
          rfl

theorem cheapestOf_none_no_prices (l : List Obs) (h : cheapestOf l = none) :
    l.filterMap (fun r => r.minPrice) = [] := by
  have hp := cheapestOf_price l
  rw [h] at hp
  exact (pyMin_eq_none_iff _).mp hp.symm

theorem cheapestOf_min (l : List Obs) (c : Cheapest) (h : cheapestOf l = some c) :
    c.price ∈ l.filterMap (fun r => r.minPrice) ∧
    ∀ p ∈ l.filterMap (fun r => r.minPrice), c.price ≤ p := by
  have hp := cheapestOf_price l
  rw [h] at hp
  exact pyMin_spec _ _ (by rw [← hp]; rfl)

/-- One run preserves the best-record invariant, extending the set of
observed prices by the run's present prices. -/
theorem runBest_good (b : Option BestRec) (results : List Obs) (ps : List ℚ)
    (h : GoodBest b ps) :
    GoodBest (runBest b results) (ps ++ results.filterMap (fun r => r.minPrice)) := by
  unfold runBest
  cases hc : cheapestOf results with
  | none =>
      rw [cheapestOf_none_no_prices results hc, List.append_nil]
      exact h
  | some c =>
      obtain ⟨hmem, hle⟩ := cheapestOf_min results c hc
      cases b with
      | none =>
          have hps : ps = [] := h
          refine ⟨c.price, rfl, ?_⟩
          intro p hp
          rw [hps, List.nil_append] at hp
          exact hle p hp
      | some br =>
          obtain ⟨q, hq, hbound⟩ := h
          by_cases halt : c.price < q
          · have hs : shouldAlert (some c) (some br) = true := by
              simp [shouldAlert, hq, halt]
            have hnb : newBest (some c) (some br) = some c.toBest := by
              simp [newBest, hs]
            rw [hnb]
            refine ⟨c.price, rfl, ?_⟩
            intro p hp
            rcases List.mem_append.mp hp with hp | hp
            · exact le_trans (le_of_lt halt) (hbound p hp)
            · exact hle p hp
          · have hs : shouldAlert (some c) (some br) = false := by
              simp [shouldAlert, hq, halt]
            have hnb : newBest (some c) (some br) = some br := by
              simp [newBest, hs]
            rw [hnb]
            refine ⟨q, hq, ?_⟩
            intro p hp
            rcases List.mem_append.mp hp with hp | hp
            · exact hbound p hp
            · exact le_trans (le_of_not_lt halt) (hle p hp)

theorem runsBest_good_aux (runs : List (List Obs)) :
    ∀ b ps, GoodBest b ps → GoodBest (runs.foldl runBest b) (ps ++ observedPrices runs) := by
  induction runs with
  | nil =>
      intro b ps h
      simpa [observedPrices] using h
  | cons rs rest ih =>
      intro b ps h
      have h2 := ih (runBest b rs) _ (runBest_good b rs ps h)
      simpa [observedPrices, List.flatMap_cons, List.append_assoc] using h2

/-- Starting from no history, the persisted best record always satisfies
the invariant with respect to everything observed so far. -/
theorem runsBest_good (runs : List (List Obs)) :
    GoodBest (runsBest runs) (observedPrices runs) := by
  have h := runsBest_good_aux runs none [] rfl
  simpa [runsBest] using h

/-- One further run can only keep or lower a present best price. -/
theorem runBest_decreasing (b : BestRec) (q : ℚ) (hq : b.price = some q)
    (results : List Obs) :
    ∃ b2 q2, runBest (some b) results = some b2 ∧ b2.price = some q2 ∧ q2 ≤ q := by
  unfold runBest
  cases hc : cheapestOf results with
  | none => exact ⟨b, q, rfl, hq, le_refl q⟩
  | some c =>
      by_cases halt : c.price < q
      · have hs : shouldAlert (some c) (some b) = true := by
          simp [shouldAlert, hq, halt]
        exact ⟨c.toBest, c.price, by simp [newBest, hs], rfl, le_of_lt halt⟩
      · have hs : shouldAlert (some c) (some b) = false := by
          simp [shouldAlert, hq, halt]
        exact ⟨b, q, by simp [newBest, hs], hq, le_refl q⟩

/-- C6: across any sequence of runs starting from no history, the persisted
best price, when present, is a lower bound of every `minPrice` ever
observed in any run so far, and appending one further run never increases
it. -/
theorem best_monotone (runs : List (List Obs)) (next : List Obs) :
    (∀ b q, runsBest runs = some b → b.price = some q →
      ∀ p ∈ observedPrices runs, q ≤ p) ∧
    (∀ b q, runsBest runs = some b → b.price = some q →
      ∃ b2 q2, runsBest (runs ++ [next]) = some b2 ∧ b2.price = some q2 ∧ q2 ≤ q) := by
  constructor
  · intro b q hb hq p hp
    have h := runsBest_good runs
    rw [hb] at h
    obtain ⟨q2, hq2, hbound⟩ := h
    rw [hq] at hq2
    cases hq2
    exact hbound p hp
  · intro b q hb hq
    have happ : runsBest (runs ++ [next]) = runBest (runsBest runs) next := by
      unfold runsBest
      rw [List.foldl_append]
      rfl
    rw [happ, hb]
    exact runBest_decreasing b q hq next

/-- Witness for `best_monotone`: a 500 observation followed by a 450 run. -/
theorem best_monotone_witness :
    (∀ p ∈ observedPrices [[Obs.mk "KLOOK" "2025-09-01" "u" (some 500)]], (500 : ℚ) ≤ p) ∧
    ∃ b2 q2, runsBest ([[Obs.mk "KLOOK" "2025-09-01" "u" (some 500)]] ++
        [[Obs.mk "TRIPCOM" "2025-09-02" "v" (some 450)]]) = some b2 ∧
      b2.price = some q2 ∧ q2 ≤ (500 : ℚ) := by
  have h := best_monotone [[Obs.mk "KLOOK" "2025-09-01" "u" (some 500)]]
    [Obs.mk "TRIPCOM" "2025-09-02" "v" (some 450)]
  have hb : runsBest [[Obs.mk "KLOOK" "2025-09-01" "u" (some 500)]] =
      some ⟨some 500, "KLOOK", "2025-09-01", "u"⟩ := by decide
  exact ⟨h.1 _ 500 hb rfl, h.2 _ 500 hb rfl⟩

/-! ## C8 — no date-list validation -/

/-- C8 (documenting a divergence from the spec): `main` performs no
validation of the configured date list.  With the malformed date entry
`"definitely-not-a-date"` and the repository's default URL templates, the
target loop still builds one target per vendor, and the scraping loop
attempts a fetch for every one of them (one observation each, whatever the
fetch function is) — the run is not aborted before fetching. -/
theorem malformed_dates_fetched :
    buildTargets ["definitely-not-a-date"] "https://REPLACE-KLOOK-URL"
        "https://REPLACE-TRIPCOM-URL?date={DATE}" =
      [⟨"KLOOK", "definitely-not-a-date", "https://REPLACE-KLOOK-URL"⟩,
       ⟨"TRIPCOM", "definitely-not-a-date",
        "https://REPLACE-TRIPCOM-URL?date=definitely-not-a-date"⟩] ∧
    ∀ fetch : Target → FetchOutcome,
      (collectResults (buildTargets ["definitely-not-a-date"] "https://REPLACE-KLOOK-URL"
        "https://REPLACE-TRIPCOM-URL?date={DATE}") fetch).length = 2 := by
  refine ⟨by decide, fun fetch => ?_⟩
  rw [collectResults_length]
  decide

end PriceTracker
